import Mathlib

/-!
Verification of the FASTA package (Sequence data model, streaming Scanner,
and the Concatenate helper) against its specification.

The Go code is shallowly embedded: byte streams are lists of `Nat` (byte
values 0..255), Go strings are byte lists, the `bufio.Reader`-backed Scanner
becomes a state record threaded explicitly, and `ReadBytes('\n')` becomes a
pure splitting function.  A Go run-time panic (out-of-range slice) is
modelled as `Option.none`.
-/

namespace Fasta

/-- Default line length for serialized FASTA output (Go constant
`DefaultLineLength = 70`). -/
def DefaultLineLength : Nat := 70

/-- A FASTA record, mirroring the Go struct `Sequence`: a header string
(as bytes), the residue data buffer, and the display wrap width. -/
structure Sequence where
  header : List Nat
  data : List Nat
  lineLength : Nat

/-- Scanner state, mirroring the Go struct `Scanner` built over a
`bufio.Reader`: the not-yet-consumed input bytes stand in for the reader,
`errEOF` models `s.err == io.EOF`, and the remaining fields are the Go
fields of the same names. -/
structure Scanner where
  input : List Nat
  line : List Nat
  errEOF : Bool
  isHeader : Bool
  lastSequence : Bool
  previousHeader : List Nat
  currentHeader : List Nat
  firstSequence : Bool
  data : List Nat

deriving instance DecidableEq for Sequence

deriving instance DecidableEq for Scanner

/-- Go `NewSequence(h, d)`: a fresh record at the default line length (the
deep copy of `d` is implicit in the value semantics of lists). -/
def NewSequence (h : List Nat) (d : List Nat) : Sequence :=
  { header := h, data := d, lineLength := DefaultLineLength }

/-- Go `(*Sequence).Equals`: headers identical and data byte-for-byte
identical; the wrap width is not compared. -/
def Sequence.Equals (a b : Sequence) : Bool :=
  if a.header = b.header then
    if a.data.length = b.data.length then a.data == b.data
    else false
  else false

/-- Go `(*Sequence).SetLineLength`: values below 1 request effectively
infinite lines (`math.MaxInt64`). -/
def Sequence.SetLineLength (s : Sequence) (l : Int) : Sequence :=
  if l < 1 then { s with lineLength := 2 ^ 63 - 1 }
  else { s with lineLength := l.toNat }

/-- The byte-emission loop of Go `(*Sequence).String`: append each residue,
count bytes on the current line, and emit a line feed whenever the count
reaches the wrap width.  Returns the grown buffer and the final count. -/
def stringLoop (lineLength : Nat) : List Nat → Nat → List Nat → List Nat × Nat
  | [], c, b => (b, c)
  | r :: rest, c, b =>
    if c + 1 = lineLength then stringLoop lineLength rest 0 (b ++ [r, 10])
    else stringLoop lineLength rest (c + 1) (b ++ [r])

/-- Go `(*Sequence).String`: marker, header, line feed, then the wrapped
data; a trailing line feed (present exactly when the byte count ended at 0)
is dropped, and an empty buffer would serialize to the empty string. -/
def Sequence.toString (s : Sequence) : List Nat :=
  let b := 62 :: s.header ++ [10]
  let p := stringLoop s.lineLength s.data 0 b
  let b1 := if p.2 = 0 ∧ 0 < p.1.length then p.1.dropLast else p.1
  if 0 < b1.length then b1 else []

/-- Go `bufio.Reader.ReadBytes('\n')` on the remaining input: the chunk up
to and including the first line feed, the rest of the input, and an
end-of-input flag (`true` models a non-nil error, i.e. `io.EOF` reached
before any delimiter; the partial chunk is still returned). -/
def readLine : List Nat → List Nat × List Nat × Bool
  | [] => ([], [], true)
  | b :: rest =>
    if b = 10 then ([10], rest, false)
    else
      let p := readLine rest
      (b :: p.1, p.2.1, p.2.2)

/-- Go `bytes.TrimRight(line, "\r\n")`: strip trailing carriage returns and
line feeds. -/
def trimRight (l : List Nat) : List Nat :=
  (l.reverse.dropWhile (fun b => b == 13 || b == 10)).reverse

/-- Go `(*Scanner).ScanLine`: read one chunk; on a read error record it and
return false; otherwise trim the line, and if it is non-empty classify it
as header or data by its first byte; an empty line clears the recorded
error and returns true with the line left empty. -/
def ScanLine (s : Scanner) : Bool × Scanner :=
  let p := readLine s.input
  let s1 := { s with input := p.2.1, line := p.1 }
  if p.2.2 then (false, { s1 with errEOF := true })
  else
    match trimRight s1.line with
    | [] => (true, { s1 with line := [], errEOF := false })
    | b :: t => (true, { s1 with line := b :: t, isHeader := b == 62 })

/-- Go `(*Scanner).IsHeader`. -/
def Scanner.IsHeader (s : Scanner) : Bool := s.isHeader

/-- Go `(*Scanner).Line`. -/
def Scanner.Line (s : Scanner) : List Nat := s.line

/-- Go `(*Scanner).Flush`: the bytes of a line terminated by end-of-input
rather than a line feed; empty when the last read did not end in `io.EOF`. -/
def Scanner.Flush (s : Scanner) : List Nat :=
  if s.errEOF then s.line else []

/-- Go `(*Scanner).Sequence`: materialize the record under "previous
header" with a copy of the accumulation buffer at the default line length,
and clear the buffer. -/
def Scanner.Sequence (s : Scanner) : Fasta.Sequence × Scanner :=
  ({ header := s.previousHeader, data := s.data, lineLength := DefaultLineLength },
   { s with data := [] })

/-- The `for s.ScanLine()` loop of Go `(*Scanner).ScanSequence`, with an
explicit fuel argument for structural termination (the wrapper `scanLoop`
always supplies enough fuel, see `scanLoopF_congr`).  On a header line the
slice `s.Line()[1:]` is taken: on an empty line this is the Go out-of-range
panic, modelled as `none`.  On exhaustion the flush bytes are appended,
the open header is promoted, and true is returned exactly when some header
was ever seen. -/
def scanLoopF : Nat → Scanner → Option (Bool × Scanner)
  | 0, _ => none
  | n + 1, s =>
    match ScanLine s with
    | (false, s1) =>
      let s2 := { s1 with lastSequence := true }
      let s3 := if s2.errEOF then { s2 with data := s2.data ++ s2.line } else s2
      let s4 := { s3 with previousHeader := s3.currentHeader }
      some (!s4.firstSequence, s4)
    | (true, s1) =>
      if s1.isHeader then
        match s1.line with
        | [] => none
        | _ :: t =>
          let s2 := { s1 with previousHeader := s1.currentHeader, currentHeader := t }
          if s2.firstSequence then scanLoopF n { s2 with firstSequence := false }
          else some (true, s2)
      else scanLoopF n { s1 with data := s1.data ++ s1.line }

/-- The scan loop with its fuel instantiated to more than the remaining
input length, which is always sufficient. -/
def scanLoop (s : Scanner) : Option (Bool × Scanner) :=
  scanLoopF (s.input.length + 1) s

/-- Go `(*Scanner).ScanSequence`: after the terminal record, false
immediately; otherwise run the line loop.  `none` models a Go panic. -/
def ScanSequence (s : Scanner) : Option (Bool × Scanner) :=
  if s.lastSequence then some (false, s) else scanLoop s

/-- Go `NewScanner`: all fields at their zero values except
`firstSequence`, which starts true. -/
def NewScanner (input : List Nat) : Scanner :=
  { input := input, line := [], errEOF := false, isHeader := false,
    lastSequence := false, previousHeader := [], currentHeader := [],
    firstSequence := true, data := [] }

/-- The forward complement alphabet of Go `Complement`,
`"ACGTUWSMKRYBDHVNacgtuwsmkrybdhvn"` as byte values. -/
def compSrc : List Nat :=
  [65, 67, 71, 84, 85, 87, 83, 77, 75, 82, 89, 66, 68, 72, 86, 78,
   97, 99, 103, 116, 117, 119, 115, 109, 107, 114, 121, 98, 100, 104, 118, 110]

/-- The complemented alphabet of Go `Complement`,
`"TGCAAWSKMYRVHDBNtgcaawskmyrvhdbn"` as byte values. -/
def compDst : List Nat :=
  [84, 71, 67, 65, 65, 87, 83, 75, 77, 89, 82, 86, 72, 68, 66, 78,
   116, 103, 99, 97, 97, 119, 115, 107, 109, 121, 114, 118, 104, 100, 98, 110]

/-- The 256-entry substitution table `dic` of Go `Complement`: the identity
on every byte, overwritten at the positions of `compSrc` by the matching
bytes of `compDst` (built once and reused, per the lazy package-level
variable in the source). -/
def dic : List Nat :=
  (compSrc.zip compDst).foldl (fun d p => d.set p.1 p.2) (List.range 256)

/-- Go `(*Sequence).Complement`: map every data byte through `dic`
(Go indexes `dic[v]` with a byte `v < 256`; the default value `v` of
`getD` is never used for byte-valued data). -/
def Sequence.Complement (s : Sequence) : Sequence :=
  { s with data := s.data.map (fun v => dic.getD v v) }

/-- Go `(*Sequence).Reverse`: the in-place two-pointer swap loop reverses
the data buffer. -/
def Sequence.Reverse (s : Sequence) : Sequence :=
  { s with data := s.data.reverse }

/-- Go `(*Sequence).ReverseComplement`: `Reverse` then `Complement`. -/
def Sequence.ReverseComplement (s : Sequence) : Sequence :=
  s.Reverse.Complement

/-- Go `Concatenate` (from the literate source): an empty slice is an
error (reported, `nil` result, modelled as `none`); a one-element slice is
returned unchanged; otherwise headers and data of all elements are glued
left to right, a non-zero sentinel byte inserted before each element after
the first, and the result is a fresh record at the default line length. -/
def Concatenate : List Sequence → Nat → Option Sequence
  | [], _ => none
  | [s], _ => some s
  | s0 :: s1 :: rest, sentinel =>
    let step := fun (hd : List Nat × List Nat) (s : Sequence) =>
      let hd1 := if sentinel ≠ 0 then (hd.1 ++ [sentinel], hd.2 ++ [sentinel]) else hd
      (hd1.1 ++ s.header, hd1.2 ++ s.data)
    let p := (s1 :: rest).foldl step (s0.header, s0.data)
    some (NewSequence p.1 p.2)

/-- Split an input stream at line feeds: the list of terminated line
contents (line feeds excluded) and the trailing unterminated chunk.  Used
only to state stream-level properties of the scanner. -/
def splitOnNl : List Nat → List (List Nat) × List Nat
  | [] => ([], [])
  | b :: rest =>
    let p := splitOnNl rest
    if b = 10 then ([] :: p.1, p.2)
    else
      match p with
      | ([], tr) => ([], b :: tr)
      | (l :: ls, tr) => ((b :: l) :: ls, tr)

/-- A line content is a header line when, after trimming, it is non-empty
and starts with the marker byte `'>'`. -/
def isHeaderLine (l : List Nat) : Bool :=
  !(trimRight l).isEmpty && ((trimRight l).head? == some 62)

/-- An input stream none of whose terminated lines is a header line. -/
def noHeaderInput (inp : List Nat) : Bool :=
  (splitOnNl inp).1.all (fun l => !(isHeaderLine l))

/-- Walking the terminated lines of a stream from a given value of the
scanner's classification flag: true when no line that trims to empty is
met while the flag marks a header (the flag is updated by each non-empty
line's first byte, exactly as `ScanLine` updates `isHeader`).  Under this
condition the header branch of the record loop only ever sees non-empty
lines. -/
def noBlankAfterHeader : Bool → List (List Nat) → Bool
  | _, [] => true
  | h, l :: ls =>
    match trimRight l with
    | [] => !h && noBlankAfterHeader h ls
    | b :: _ => noBlankAfterHeader (b == 62) ls

/-- The data section of `Sequence.toString` for remaining data `D` and a
current line already holding `c` bytes: residues interleaved with a line
feed at each wrap point, except that no line feed follows the final
residue (the source drops it). -/
def emitDrop (lineLength : Nat) : List Nat → Nat → List Nat
  | [], _ => []
  | r :: rest, c =>
    if c + 1 = lineLength then
      if rest = [] then [r] else r :: 10 :: emitDrop lineLength rest 0
    else r :: emitDrop lineLength rest c.succ

/-- Modelled from the spec (§4.2 complement table, for comparison with the
source table `dic`): the claimed substitution pairs, upper and lower case,
with every byte outside the table passing through unchanged. -/
def specComplementPairs : List (Nat × Nat) :=
  [(65, 84), (67, 71), (71, 67), (84, 65), (85, 65), (87, 87), (83, 83),
   (77, 75), (75, 77), (82, 89), (89, 82), (66, 86), (86, 66), (68, 72),
   (72, 68), (78, 78),
   (97, 116), (99, 103), (103, 99), (116, 97), (117, 97), (119, 119),
   (115, 115), (109, 107), (107, 109), (114, 121), (121, 114), (98, 118),
   (118, 98), (100, 104), (104, 100), (110, 110)]

/-- Modelled from the spec: the complement of one byte per the §4.2 table,
defaulting to the byte itself outside the table. -/
def specComplement (b : Nat) : Nat :=
  ((specComplementPairs.find? (fun p => p.1 == b)).map Prod.snd).getD b

/-- The complement alphabet with `U`/`u` removed: on these bytes the
table is self-inverse. -/
def iupacNoU : List Nat :=
  [65, 67, 71, 84, 87, 83, 77, 75, 82, 89, 66, 68, 72, 86, 78,
   97, 99, 103, 116, 119, 115, 109, 107, 114, 121, 98, 100, 104, 118, 110]

/-- Modelled from the spec (§4.3, for comparison with `Concatenate`): glue
the pieces left to right with the separator between successive pieces only
when it is non-zero, never at the start or end. -/
def joinWithSep (sep : Nat) : List (List Nat) → List Nat
  | [] => []
  | [p] => p
  | p :: ps => p ++ (if sep ≠ 0 then [sep] else []) ++ joinWithSep sep ps

/-- Reading a chunk splits the input: the input is the chunk followed by
the rest. -/
theorem readLine_append : ∀ inp : List Nat, inp = (readLine inp).1 ++ (readLine inp).2.1 := by
  intro inp
  induction inp with
  | nil => rfl
  | cons b rest ih =>
    by_cases hb : b = 10
    · simp [readLine, hb]
    · simp only [readLine, if_neg hb]
      exact congrArg (b :: ·) ih

/-- A successfully delimited chunk is non-empty. -/
theorem readLine_ne_nil {inp c r : List Nat} (h : readLine inp = (c, r, false)) : c ≠ [] := by
  cases inp with
  | nil => simp [readLine] at h
  | cons b rest =>
    by_cases hb : b = 10
    · simp only [readLine, if_pos hb, Prod.mk.injEq] at h
      intro hc; subst hc; simp at h
    · simp only [readLine, if_neg hb, Prod.mk.injEq] at h
      intro hc; subst hc; simp at h

/-- A successful read strictly shortens the remaining input. -/
theorem readLine_lt {inp c r : List Nat} (h : readLine inp = (c, r, false)) :
    r.length < inp.length := by
  have ha := readLine_append inp
  rw [h] at ha
  simp only at ha
  have hc : c ≠ [] := readLine_ne_nil h
  rw [ha, List.length_append]
  cases c with
  | nil => exact absurd rfl hc
  | cons x xs => simp

/-- A chunk with no line feed is read whole, signalling end of input. -/
theorem readLine_no10 {l : List Nat} (h : ∀ b ∈ l, b ≠ 10) : readLine l = (l, [], true) := by
  induction l with
  | nil => rfl
  | cons b rest ih =>
    have hb : b ≠ 10 := h b (by simp)
    have h2 := ih (fun x hx => h x (by simp [hx]))
    simp [readLine, hb, h2]

/-- A line feed delimits the chunk: everything before the first line feed,
the line feed included, is the chunk. -/
theorem readLine_term : ∀ (l rest : List Nat), (∀ b ∈ l, b ≠ 10) →
    readLine (l ++ 10 :: rest) = (l ++ [10], rest, false) := by
  intro l
  induction l with
  | nil => intro rest h; simp [readLine]
  | cons b bs ih =>
    intro rest h
    have hb : b ≠ 10 := h b (by simp)
    have h2 := ih rest (fun x hx => h x (by simp [hx]))
    simp [readLine, hb, h2]

/-- Dropping by a predicate that holds nowhere is the identity. -/
theorem dropWhile_of_none {p : Nat → Bool} :
    ∀ {l : List Nat}, (∀ b ∈ l, p b = false) → l.dropWhile p = l := by
  intro l h
  cases l with
  | nil => rfl
  | cons b rest =>
    have hb : p b = false := h b (by simp)
    simp [List.dropWhile, hb]

/-- Trimming leaves a line without carriage returns and line feeds
unchanged. -/
theorem trimRight_of_clean {l : List Nat} (h : ∀ b ∈ l, b ≠ 13 ∧ b ≠ 10) :
    trimRight l = l := by
  unfold trimRight
  rw [dropWhile_of_none, List.reverse_reverse]
  intro b hb
  have := h b (List.mem_reverse.mp hb)
  simp [this.1, this.2]

/-- Trimming eats a final line feed. -/
theorem trimRight_append10 (l : List Nat) : trimRight (l ++ [10]) = trimRight l := by
  unfold trimRight
  simp [List.dropWhile]

/-- `ScanLine` on end of input: record the error, keep the partial chunk
untrimmed, return false. -/
theorem ScanLine_eof {s : Scanner} {c r : List Nat}
    (h : readLine s.input = (c, r, true)) :
    ScanLine s = (false, { s with input := r, line := c, errEOF := true }) := by
  simp [ScanLine, h]

/-- `ScanLine` on a line that trims to empty: return true with the line
empty, the error cleared and the header flag untouched. -/
theorem ScanLine_empty {s : Scanner} {c r : List Nat}
    (h : readLine s.input = (c, r, false)) (ht : trimRight c = []) :
    ScanLine s = (true, { s with input := r, line := [], errEOF := false }) := by
  simp [ScanLine, h, ht]

/-- `ScanLine` on a line with content: return true, store the trimmed line
and classify it by its first byte. -/
theorem ScanLine_content {s : Scanner} {c r : List Nat} {b : Nat} {t : List Nat}
    (h : readLine s.input = (c, r, false)) (ht : trimRight c = b :: t) :
    ScanLine s = (true, { s with input := r, line := b :: t, isHeader := b == 62 }) := by
  simp [ScanLine, h, ht]

/-- A true `ScanLine` consumed at least one input byte. -/
theorem ScanLine_true_lt {s : Scanner} {s1 : Scanner} (h : ScanLine s = (true, s1)) :
    s1.input.length < s.input.length := by
  rcases hrl : readLine s.input with ⟨c, r, e⟩
  cases e with
  | true => rw [ScanLine_eof hrl] at h; exact absurd (congrArg Prod.fst h) (by simp)
  | false =>
    have hlt : r.length < s.input.length := readLine_lt hrl
    rcases hc : trimRight c with _ | ⟨b, t⟩
    · rw [ScanLine_empty hrl hc] at h
      cases h; exact hlt
    · rw [ScanLine_content hrl hc] at h
      cases h; exact hlt

/-- A false `ScanLine` recorded the end-of-input error. -/
theorem ScanLine_false_errEOF {s s1 : Scanner} (h : ScanLine s = (false, s1)) :
    s1.errEOF = true := by
  rcases hrl : readLine s.input with ⟨c, r, e⟩
  cases e with
  | true => rw [ScanLine_eof hrl] at h; cases h; rfl
  | false =>
    rcases hc : trimRight c with _ | ⟨b, t⟩
    · rw [ScanLine_empty hrl hc] at h; exact absurd (congrArg Prod.fst h) (by simp)
    · rw [ScanLine_content hrl hc] at h; exact absurd (congrArg Prod.fst h) (by simp)

/-- Any two sufficient fuels give the scan loop the same result. -/
theorem scanLoopF_congr :
    ∀ (k : Nat) (s : Scanner) (n m : Nat), s.input.length ≤ k →
      s.input.length < n → s.input.length < m → scanLoopF n s = scanLoopF m s := by
  intro k
  induction k with
  | zero =>
    intro s n m hk hn hm
    have hinp : s.input = [] := List.length_eq_zero.mp (Nat.le_zero.mp hk)
    obtain ⟨n', rfl⟩ : ∃ n', n = n' + 1 := ⟨n - 1, by omega⟩
    obtain ⟨m', rfl⟩ : ∃ m', m = m' + 1 := ⟨m - 1, by omega⟩
    have hrl : readLine s.input = ([], [], true) := by rw [hinp]; rfl
    rw [scanLoopF, scanLoopF, ScanLine_eof hrl]
  | succ k ih =>
    intro s n m hk hn hm
    obtain ⟨n', rfl⟩ : ∃ n', n = n' + 1 := ⟨n - 1, by omega⟩
    obtain ⟨m', rfl⟩ : ∃ m', m = m' + 1 := ⟨m - 1, by omega⟩
    rw [scanLoopF, scanLoopF]
    rcases hsl : ScanLine s with ⟨ok, s1⟩
    cases ok with
    | false => rfl
    | true =>
      have hlt : s1.input.length < s.input.length := ScanLine_true_lt hsl
      dsimp only
      by_cases hh : s1.isHeader = true
      · simp only [if_pos hh]
        cases hline : s1.line with
        | nil => rfl
        | cons b t =>
          dsimp only
          by_cases hf : s1.firstSequence = true
          · simp only [if_pos hf]
            exact ih _ n' m' (show s1.input.length ≤ k by omega)
              (show s1.input.length < n' by omega) (show s1.input.length < m' by omega)
          · simp only [if_neg hf]
      · simp only [if_neg hh]
        exact ih _ n' m' (show s1.input.length ≤ k by omega)
          (show s1.input.length < n' by omega) (show s1.input.length < m' by omega)

/-- One exhaustion step of the scan loop: set the terminal flag, append
the flushed bytes, promote the open header, and report whether any header
was ever seen. -/
theorem scanLoop_exhaust {s s1 : Scanner} (h : ScanLine s = (false, s1)) :
    scanLoop s = some (!s1.firstSequence,
      { s1 with
          lastSequence := true
          data := s1.data ++ s1.line
          previousHeader := s1.currentHeader }) := by
  have hE : s1.errEOF = true := ScanLine_false_errEOF h
  show scanLoopF (s.input.length + 1) s = _
  rw [scanLoopF, h]
  dsimp only
  rw [if_pos hE]

/-- One data step of the scan loop: append the line to the accumulation
buffer and continue. -/
theorem scanLoop_data_step {s s1 : Scanner} (h : ScanLine s = (true, s1))
    (hh : s1.isHeader = false) :
    scanLoop s = scanLoop { s1 with data := s1.data ++ s1.line } := by
  have hlt : s1.input.length < s.input.length := ScanLine_true_lt h
  show scanLoopF (s.input.length + 1) s =
    scanLoopF (s1.input.length + 1) { s1 with data := s1.data ++ s1.line }
  rw [scanLoopF, h]
  dsimp only
  rw [if_neg (by simp [hh])]
  exact scanLoopF_congr s1.input.length _ _ _ (le_refl _) hlt (Nat.lt_succ_self _)

/-- One step of the scan loop on the very first header: shift the headers,
clear the first-record sentinel, and continue without returning. -/
theorem scanLoop_header_first {s s1 : Scanner} {b : Nat} {t : List Nat}
    (h : ScanLine s = (true, s1)) (hh : s1.isHeader = true) (hl : s1.line = b :: t)
    (hf : s1.firstSequence = true) :
    scanLoop s = scanLoop { s1 with
      previousHeader := s1.currentHeader
      currentHeader := t
      firstSequence := false } := by
  have hlt : s1.input.length < s.input.length := ScanLine_true_lt h
  show scanLoopF (s.input.length + 1) s = scanLoopF (s1.input.length + 1) _
  rw [scanLoopF, h]
  dsimp only
  rw [if_pos hh, hl]
  dsimp only
  rw [if_pos hf]
  exact scanLoopF_congr s1.input.length _ _ _ (le_refl _) hlt (Nat.lt_succ_self _)

/-- One step of the scan loop on a subsequent header: return true
immediately, the closed record's header being the previous one. -/
theorem scanLoop_header_return {s s1 : Scanner} {b : Nat} {t : List Nat}
    (h : ScanLine s = (true, s1)) (hh : s1.isHeader = true) (hl : s1.line = b :: t)
    (hf : s1.firstSequence = false) :
    scanLoop s = some (true, { s1 with
      previousHeader := s1.currentHeader
      currentHeader := t }) := by
  show scanLoopF (s.input.length + 1) s = _
  rw [scanLoopF, h]
  dsimp only
  rw [if_pos hh, hl]
  dsimp only
  rw [if_neg (by simp [hf])]

/-- One step of the scan loop on a header-classified empty line: the
slice `Line()[1:]` is out of range, a Go panic. -/
theorem scanLoop_header_panic {s s1 : Scanner} (h : ScanLine s = (true, s1))
    (hh : s1.isHeader = true) (hl : s1.line = []) :
    scanLoop s = none := by
  show scanLoopF (s.input.length + 1) s = _
  rw [scanLoopF, h]
  dsimp only
  rw [if_pos hh, hl]

set_option maxRecDepth 100000 in
/-- The source substitution table agrees pointwise with the table claimed
by the spec on every byte value. -/
theorem dic_matches_spec : ∀ b : Nat, b < 256 → dic.getD b b = specComplement b := by decide

/-- Mapping through the source table equals mapping through the spec table
on byte-valued data. -/
theorem mapDic_eq_mapSpec : ∀ d : List Nat, (∀ b ∈ d, b < 256) →
    d.map (fun v => dic.getD v v) = d.map specComplement := by
  intro d h
  induction d with
  | nil => rfl
  | cons x xs ih =>
    simp only [List.map_cons]
    rw [dic_matches_spec x (h x (by simp)), ih (fun b hb => h b (by simp [hb]))]

/-- C8: `Complement` maps every data byte through the fixed substitution
table claimed in the spec (A↔T, C↔G, T→A, U→A, W→W, S→S, M↔K, R↔Y, B↔V,
D↔H, N→N, the same pairs in lower case, everything else unchanged), and
the data buffer keeps its length. -/
theorem claim_c8_complement_table (s : Sequence) (h : ∀ b ∈ s.data, b < 256) :
    s.Complement.data = s.data.map specComplement ∧
    s.Complement.data.length = s.data.length := by
  have h1 : s.Complement.data = s.data.map (fun v => dic.getD v v) := rfl
  rw [h1, mapDic_eq_mapSpec s.data h]
  exact ⟨rfl, List.length_map _ _⟩

/-- Witness for C8 at concrete data `"ACGTUNx"`. -/
theorem claim_c8_complement_table_witness :
    (∀ b ∈ (NewSequence [] [65, 67, 71, 84, 85, 78, 120]).data, b < 256) ∧
    (NewSequence [] [65, 67, 71, 84, 85, 78, 120]).Complement.data =
      (NewSequence [] [65, 67, 71, 84, 85, 78, 120]).data.map specComplement :=
  ⟨by decide, (claim_c8_complement_table (NewSequence [] [65, 67, 71, 84, 85, 78, 120])
    (by decide)).1⟩

set_option maxRecDepth 100000 in
/-- On the complement alphabet with `U`/`u` removed the source table is
self-inverse. -/
theorem dic_selfinv_noU : ∀ b ∈ iupacNoU, dic.getD (dic.getD b b) (dic.getD b b) = b := by
  decide

/-- Complementing twice is the identity on data over the `U`-free
alphabet. -/
theorem mapDic_mapDic : ∀ d : List Nat, (∀ b ∈ d, b ∈ iupacNoU) →
    (d.map (fun v => dic.getD v v)).map (fun v => dic.getD v v) = d := by
  intro d h
  induction d with
  | nil => rfl
  | cons x xs ih =>
    simp only [List.map_cons]
    rw [dic_selfinv_noU x (h x (by simp)), ih (fun b hb => h b (by simp [hb]))]

/-- Counterexample to C9 as stated: `U` is in the table's alphabet,
but double reverse-complement sends `"U"` to `"T"` (U→A on the first pass,
A→T on the second), so the table is not self-inverse on the full alphabet
and the data is not restored. -/
theorem claim_c9_counterexample :
    (NewSequence [] [85]).ReverseComplement.ReverseComplement.data ≠
      (NewSequence [] [85]).data := by decide

/-- C9 (amended): double `ReverseComplement` restores the data whenever
the data bytes are drawn from the table's alphabet with `U`/`u` excluded,
on which the complement table is self-inverse. -/
theorem claim_c9_rc_involutive (s : Sequence) (h : ∀ b ∈ s.data, b ∈ iupacNoU) :
    s.ReverseComplement.ReverseComplement.data = s.data := by
  have h1 : s.ReverseComplement.ReverseComplement.data =
      ((s.data.reverse.map (fun v => dic.getD v v)).reverse.map (fun v => dic.getD v v)) := rfl
  rw [h1]
  simp only [List.map_reverse, List.reverse_reverse]
  exact mapDic_mapDic s.data h

/-- Witness for C9 at concrete alphabet data `"ACGTNacgtn"`. -/
theorem claim_c9_rc_involutive_witness :
    (∀ b ∈ (NewSequence [] [65, 67, 71, 84, 78, 97, 99, 103, 116, 110]).data, b ∈ iupacNoU) ∧
    (NewSequence [] [65, 67, 71, 84, 78, 97, 99, 103, 116, 110]
      ).ReverseComplement.ReverseComplement.data =
      (NewSequence [] [65, 67, 71, 84, 78, 97, 99, 103, 116, 110]).data :=
  ⟨by decide, claim_c9_rc_involutive _ (by decide)⟩

/-- The concatenation loop of `Concatenate`, characterized: folding the
glue step over the remaining records appends, for each record, the
optional sentinel and then its header and data. -/
theorem concatStep_foldl (sep : Nat) :
    ∀ (ys : List Sequence) (a : List Nat × List Nat),
      ys.foldl (fun (hd : List Nat × List Nat) (s : Sequence) =>
        (((if sep ≠ 0 then (hd.1 ++ [sep], hd.2 ++ [sep]) else hd)).1 ++ s.header,
         ((if sep ≠ 0 then (hd.1 ++ [sep], hd.2 ++ [sep]) else hd)).2 ++ s.data)) a =
      (a.1 ++ (ys.map (fun s => (if sep ≠ 0 then [sep] else []) ++ s.header)).join,
       a.2 ++ (ys.map (fun s => (if sep ≠ 0 then [sep] else []) ++ s.data)).join) := by
  intro ys
  induction ys with
  | nil => intro a; simp
  | cons y ys ih =>
    intro a
    rw [List.foldl_cons, ih]
    by_cases hs : sep ≠ 0 <;> simp [hs]

/-- Joining with a separator, unrolled against per-piece gluing. -/
theorem joinWithSep_cons (sep : Nat) :
    ∀ (ps : List (List Nat)) (p : List Nat),
      joinWithSep sep (p :: ps) =
        p ++ (ps.map (fun q => (if sep ≠ 0 then [sep] else []) ++ q)).join := by
  intro ps
  induction ps with
  | nil => intro p; simp [joinWithSep]
  | cons q qs ih =>
    intro p
    rw [show joinWithSep sep (p :: q :: qs) =
        p ++ (if sep ≠ 0 then [sep] else []) ++ joinWithSep sep (q :: qs) from rfl, ih q]
    simp

/-- C10: `Concatenate` on zero records yields no record (the reported
error), on one record returns that record unchanged, and on two or more
records returns one fresh record whose header and data are the headers and
data of all inputs glued in order, the separator byte inserted between
successive pieces exactly when it is non-zero and never at the start or
end. -/
theorem claim_c10_concatenate :
    (∀ sep : Nat, Concatenate [] sep = none) ∧
    (∀ (s : Sequence) (sep : Nat), Concatenate [s] sep = some s) ∧
    (∀ (ss : List Sequence) (sep : Nat), 2 ≤ ss.length →
      Concatenate ss sep =
        some (NewSequence (joinWithSep sep (ss.map Sequence.header))
          (joinWithSep sep (ss.map Sequence.data)))) := by
  refine ⟨fun _ => rfl, fun _ _ => rfl, ?_⟩
  intro ss sep hlen
  match ss with
  | [] => simp at hlen
  | [s] => simp at hlen
  | s0 :: s1 :: rest =>
    show some _ = some _
    rw [concatStep_foldl sep (s1 :: rest) (s0.header, s0.data)]
    have hh := joinWithSep_cons sep ((s1 :: rest).map Sequence.header) s0.header
    have hd := joinWithSep_cons sep ((s1 :: rest).map Sequence.data) s0.data
    rw [List.map_map] at hh hd
    simp only [List.map_cons, Function.comp_def] at hh hd
    simp only [List.map_cons]
    rw [hh, hd]

/-- Witness for C10 at three records and separator `'|'`. -/
theorem claim_c10_concatenate_witness :
    Concatenate [NewSequence [97] [65], NewSequence [98] [67], NewSequence [99] [71]] 124 =
      some (NewSequence
        (joinWithSep 124 ([NewSequence [97] [65], NewSequence [98] [67],
          NewSequence [99] [71]].map Sequence.header))
        (joinWithSep 124 ([NewSequence [97] [65], NewSequence [98] [67],
          NewSequence [99] [71]].map Sequence.data))) :=
  claim_c10_concatenate.2.2 _ 124 (by decide)

/-- Counterexample to C2 as stated: `ScanLine` does not loop past empty
lines — on an input whose next line is blank it returns true with an
empty stored line — and inserting one blank line after the header of
`">h\nA\n"` changes the outcome of `ScanSequence` from the record
`(h, "A")` to the out-of-range slice `Line()[1:]` on the empty line, a Go
panic (modelled `none`): blank lines are not ignored everywhere. -/
theorem claim_c2_blank_lines :
    ((ScanLine (NewScanner [10, 65, 10])).1 = true ∧
      (ScanLine (NewScanner [10, 65, 10])).2.line = []) ∧
    ScanSequence (NewScanner [62, 104, 10, 10, 65, 10]) = none ∧
    (ScanSequence (NewScanner [62, 104, 10, 65, 10])).map (fun p =>
        (p.1, (Scanner.Sequence p.2).1.header, (Scanner.Sequence p.2).1.data)) =
      some (true, [104], [65]) := by
  refine ⟨⟨rfl, rfl⟩, ?_, rfl⟩
  decide

/-- C2 (amended): `ScanLine` does not loop past empty lines — on a line
that trims to empty it returns true with the stored line empty, the read
error cleared, and the classification flag left unchanged from the
previous non-empty line.  A blank line is ignored at the record level
exactly when that stale flag marks a data line: there the scan loop
continues in the very same state, so records are unchanged; a blank line
whose stale flag marks a header is routed into the header branch, where
`Line()[1:]` on the empty line is out of range, a Go panic.  Concretely, a
blank line inserted after a data line of `">h\nA\nC\n"` leaves the single
parsed record `(h, "AC")` unchanged. -/
theorem claim_c2_blank_line_effect :
    (∀ (s : Scanner) (c r : List Nat), readLine s.input = (c, r, false) → trimRight c = [] →
      ScanLine s = (true, { s with input := r, line := [], errEOF := false })) ∧
    (∀ s s1 : Scanner, ScanLine s = (true, s1) → s1.line = [] →
      (s1.isHeader = false → scanLoop s = scanLoop s1) ∧
      (s1.isHeader = true → scanLoop s = none)) ∧
    ((ScanSequence (NewScanner [62, 104, 10, 65, 10, 10, 67, 10])).map (fun p =>
        (p.1, (Scanner.Sequence p.2).1.header, (Scanner.Sequence p.2).1.data)) =
      some (true, [104], [65, 67])) ∧
    ((ScanSequence (NewScanner [62, 104, 10, 65, 10, 67, 10])).map (fun p =>
        (p.1, (Scanner.Sequence p.2).1.header, (Scanner.Sequence p.2).1.data)) =
      some (true, [104], [65, 67])) := by
  refine ⟨fun s c r h ht => ScanLine_empty h ht,
    fun s s1 h hl => ⟨fun hh => ?_, fun hh => scanLoop_header_panic h hh hl⟩,
    by decide, by decide⟩
  rw [scanLoop_data_step h hh, hl, List.append_nil, ← hl]

/-- Witness for C2: `ScanLine` on the blank-led input `"\nA\n"` returns
true with an empty line, and the blank line after the header of
`">h\n\nA\n"` reaches the header branch empty. -/
theorem claim_c2_blank_line_effect_witness :
    ScanLine (NewScanner [10, 65, 10]) =
      (true, { NewScanner [10, 65, 10] with input := [65, 10], line := [], errEOF := false }) ∧
    scanLoop ((ScanLine (NewScanner [62, 104, 10, 10, 65, 10])).2) = none :=
  ⟨claim_c2_blank_line_effect.1 _ [10] [65, 10] (by decide) (by decide),
   (claim_c2_blank_line_effect.2.1 ((ScanLine (NewScanner [62, 104, 10, 10, 65, 10])).2)
     ((ScanLine ((ScanLine (NewScanner [62, 104, 10, 10, 65, 10])).2)).2)
     (by decide) (by decide)).2 (by decide)⟩

/-- Counterexample to C7 as stated: `ScanSequence` is not total on every
input byte stream — on `">h\n\n"` (a blank line directly after a header
line) the header branch is entered with an empty current line and
`Line()[1:]` is out of range, a Go panic (modelled `none`). -/
theorem claim_c7_panic :
    ScanSequence (NewScanner [62, 104, 10, 10]) = none := by decide

/-- Counterexample to C3 as stated: on the one-byte input `">"` the first
`ScanSequence` call returns false, not true — the header line, never
terminated by a line feed, is read back as end-of-input trailing bytes and
never classified as a header. -/
theorem claim_c3_counterexample :
    (ScanSequence (NewScanner [62])).map Prod.fst = some false := by decide

/-- C3 (amended): scanning the one-byte input `">"` yields zero records
(`ScanSequence` returns false and the scanner is terminal), while scanning
`">\n"` — the header marker terminated by a line break — yields exactly
one record with empty header and empty data, after which the next
`ScanSequence` call returns false. -/
theorem claim_c3_bare_marker :
    ((ScanSequence (NewScanner [62])).map (fun p => (p.1, p.2.lastSequence)) =
      some (false, true)) ∧
    ((ScanSequence (NewScanner [62, 10])).map (fun p =>
        (p.1, (Scanner.Sequence p.2).1.header, (Scanner.Sequence p.2).1.data,
         (ScanSequence (Scanner.Sequence p.2).2).map Prod.fst)) =
      some (true, [], [], some false)) := by decide

/-- C4: when the line loop exhausts the input, the trailing bytes that
`Flush` would return are appended to the accumulation buffer before the
terminal record is finalized, the open header is promoted, and the
terminal flag is set — the final record's data keeps an unterminated last
line undiminished. -/
theorem claim_c4_flush_append {s s1 : Scanner} (h : ScanLine s = (false, s1)) :
    ∃ s2, scanLoop s = some (!s1.firstSequence, s2) ∧
      s2.data = s1.data ++ Scanner.Flush s1 ∧
      s2.previousHeader = s1.currentHeader ∧ s2.lastSequence = true := by
  refine ⟨_, scanLoop_exhaust h, ?_, rfl, rfl⟩
  have hE : s1.errEOF = true := ScanLine_false_errEOF h
  simp [Scanner.Flush, hE]

/-- Witness for C4 on the unterminated input `"AB"`. -/
theorem claim_c4_flush_append_witness :
    ∃ s2, scanLoop (NewScanner [65, 66]) =
        some (!(ScanLine (NewScanner [65, 66])).2.firstSequence, s2) ∧
      s2.data = (ScanLine (NewScanner [65, 66])).2.data ++
        Scanner.Flush (ScanLine (NewScanner [65, 66])).2 ∧
      s2.previousHeader = (ScanLine (NewScanner [65, 66])).2.currentHeader ∧
      s2.lastSequence = true :=
  claim_c4_flush_append (by decide)

/-- C6: in the scan loop, the very first header line never terminates a
record — the first-record sentinel is cleared and the loop continues —
while on every subsequent header line the loop returns true immediately
and the closed record carries the previous header; concretely, a header
immediately followed by another header (`">a\n>b\n"`) produces an
intermediate record with header `"a"` and empty data. -/
theorem claim_c6_first_header :
    (∀ (s s1 : Scanner) (b : Nat) (t : List Nat),
      ScanLine s = (true, s1) → s1.isHeader = true → s1.line = b :: t →
      (s1.firstSequence = true →
        scanLoop s = scanLoop { s1 with
          previousHeader := s1.currentHeader
          currentHeader := t
          firstSequence := false }) ∧
      (s1.firstSequence = false →
        scanLoop s = some (true, { s1 with
          previousHeader := s1.currentHeader
          currentHeader := t }))) ∧
    ((ScanSequence (NewScanner [62, 97, 10, 62, 98, 10])).map (fun p =>
        (p.1, (Scanner.Sequence p.2).1.header, (Scanner.Sequence p.2).1.data)) =
      some (true, [97], [])) := by
  refine ⟨fun s s1 b t h hh hl =>
    ⟨fun hf => scanLoop_header_first h hh hl hf,
     fun hf => scanLoop_header_return h hh hl hf⟩, by decide⟩

/-- Witness for C6 on the input `">a\n"`: the first header continues the
loop with the sentinel cleared. -/
theorem claim_c6_first_header_witness :
    ScanLine (NewScanner [62, 97, 10]) = (true, (ScanLine (NewScanner [62, 97, 10])).2) ∧
    scanLoop (NewScanner [62, 97, 10]) =
      scanLoop { (ScanLine (NewScanner [62, 97, 10])).2 with
        previousHeader := (ScanLine (NewScanner [62, 97, 10])).2.currentHeader
        currentHeader := [97]
        firstSequence := false } :=
  ⟨by decide,
   (claim_c6_first_header.1 _ _ 62 [97] (by decide) (by decide) (by decide)).1 (by decide)⟩

/-- An input with no terminated line is read whole as end-of-input
trailing bytes. -/
theorem splitOnNl_nil_readLine : ∀ {inp tr : List Nat}, splitOnNl inp = ([], tr) →
    readLine inp = (inp, [], true) := by
  intro inp
  induction inp with
  | nil => intro tr _; rfl
  | cons b rest ih =>
    intro tr h
    by_cases hb : b = 10
    · simp [splitOnNl, hb] at h
    · rcases hr : splitOnNl rest with ⟨ls, tr1⟩
      cases ls with
      | nil =>
        have h2 := ih hr
        simp [readLine, hb, h2]
      | cons l ls1 => simp [splitOnNl, hb, hr] at h

/-- An input whose first terminated line is `l` is read as `l` plus its
line feed, and the rest of the input splits into the remaining lines. -/
theorem splitOnNl_cons_readLine : ∀ {inp l : List Nat} {ls : List (List Nat)} {tr : List Nat},
    splitOnNl inp = (l :: ls, tr) →
    ∃ rest, readLine inp = (l ++ [10], rest, false) ∧ splitOnNl rest = (ls, tr) := by
  intro inp
  induction inp with
  | nil => intro l ls tr h; simp [splitOnNl] at h
  | cons b rest ih =>
    intro l ls tr h
    by_cases hb : b = 10
    · rcases hr : splitOnNl rest with ⟨ls1, tr1⟩
      subst hb
      simp [splitOnNl, hr] at h
      obtain ⟨⟨h1, h2⟩, h3⟩ := h
      subst h1
      subst h2
      subst h3
      exact ⟨rest, rfl, hr⟩
    · rcases hr : splitOnNl rest with ⟨ls1, tr1⟩
      cases ls1 with
      | nil => simp [splitOnNl, hb, hr] at h
      | cons l1 ls2 =>
        simp [splitOnNl, hb, hr] at h
        obtain ⟨⟨h1, h2⟩, h3⟩ := h
        obtain ⟨rest2, hrl, hsp⟩ := ih hr
        refine ⟨rest2, ?_, ?_⟩
        · simp [readLine, hb, hrl, ← h1]
        · rw [hsp, h2, h3]

/-- Exhaustion with the first-record sentinel still set returns false and
leaves the sentinel set. -/
theorem scanLoop_exhaust_noHdr {s s1 : Scanner} (h : ScanLine s = (false, s1))
    (hf : s1.firstSequence = true) :
    ∃ s2, scanLoop s = some (false, s2) ∧ s2.lastSequence = true ∧
      s2.firstSequence = true := by
  have hx := scanLoop_exhaust h
  refine ⟨{ s1 with
      lastSequence := true
      data := s1.data ++ s1.line
      previousHeader := s1.currentHeader }, ?_, rfl, hf⟩
  rw [hx, hf]
  simp

/-- The scan loop on an input none of whose terminated lines is a header
line: the loop only ever takes the data branch, ends by exhaustion, and
returns false with the first-record sentinel still set. -/
theorem scanLoop_noHeader : ∀ (k : Nat) (s : Scanner), s.input.length ≤ k →
    s.isHeader = false → s.firstSequence = true → noHeaderInput s.input = true →
    ∃ s1, scanLoop s = some (false, s1) ∧ s1.lastSequence = true ∧
      s1.firstSequence = true := by
  intro k
  induction k with
  | zero =>
    intro s hk hih hf hnh
    have hinp : s.input = [] := List.length_eq_zero.mp (Nat.le_zero.mp hk)
    have hrl : readLine s.input = (s.input, [], true) := by rw [hinp]; rfl
    exact scanLoop_exhaust_noHdr (ScanLine_eof hrl) hf
  | succ k ih =>
    intro s hk hih hf hnh
    rcases hsp : splitOnNl s.input with ⟨ls, tr⟩
    cases ls with
    | nil =>
      have hrl := splitOnNl_nil_readLine hsp
      exact scanLoop_exhaust_noHdr (ScanLine_eof hrl) hf
    | cons l ls1 =>
      obtain ⟨rest, hrl, hsp2⟩ := splitOnNl_cons_readLine hsp
      have hlen : rest.length < s.input.length := readLine_lt hrl
      have hnh2 : noHeaderInput rest = true := by
        unfold noHeaderInput at hnh ⊢
        rw [hsp] at hnh
        rw [hsp2]
        simp only [List.all_cons, Bool.and_eq_true] at hnh
        exact hnh.2
      have hhl : isHeaderLine l = false := by
        unfold noHeaderInput at hnh
        rw [hsp] at hnh
        simp only [List.all_cons, Bool.and_eq_true] at hnh
        have := hnh.1
        cases hil : isHeaderLine l with
        | false => rfl
        | true => rw [hil] at this; simp at this
      have htr : trimRight (l ++ [10]) = trimRight l := trimRight_append10 l
      cases htl : trimRight l with
      | nil =>
        have hsl := ScanLine_empty hrl (htr.trans htl)
        rw [scanLoop_data_step hsl hih]
        refine ih _ ?_ ?_ ?_ ?_
        · show rest.length ≤ k
          omega
        · show s.isHeader = false
          exact hih
        · show s.firstSequence = true
          exact hf
        · show noHeaderInput rest = true
          exact hnh2
      | cons b t =>
        have hb62 : (b == 62) = false := by
          unfold isHeaderLine at hhl
          rw [htl] at hhl
          simpa using hhl
        have hsl := ScanLine_content hrl (htr.trans htl)
        rw [scanLoop_data_step hsl hb62]
        refine ih _ ?_ ?_ ?_ ?_
        · show rest.length ≤ k
          omega
        · show (b == 62) = false
          exact hb62
        · show s.firstSequence = true
          exact hf
        · show noHeaderInput rest = true
          exact hnh2

/-- C5: an input none of whose scanned lines is a header line — the empty
input included — makes the first `ScanSequence` return false with the
scanner terminal (so no record is ever produced), and conversely a true
return from `ScanSequence` on a fresh scanner means some scanned line was
a header line. -/
theorem claim_c5_no_header (inp : List Nat) :
    (noHeaderInput inp = true →
      ∃ s1, ScanSequence (NewScanner inp) = some (false, s1) ∧ s1.lastSequence = true ∧
        ScanSequence s1 = some (false, s1)) ∧
    (∀ r, ScanSequence (NewScanner inp) = some (true, r) → noHeaderInput inp = false) := by
  constructor
  · intro h
    obtain ⟨s1, h1, h2, h3⟩ := scanLoop_noHeader inp.length (NewScanner inp)
      (le_refl _) rfl rfl h
    refine ⟨s1, h1, h2, ?_⟩
    show ScanSequence s1 = some (false, s1)
    unfold ScanSequence
    rw [if_pos h2]
  · intro r hr
    cases hnh : noHeaderInput inp with
    | false => rfl
    | true =>
      obtain ⟨s1, h1, _, _⟩ := scanLoop_noHeader inp.length (NewScanner inp)
        (le_refl _) rfl rfl hnh
      have : ScanSequence (NewScanner inp) = scanLoop (NewScanner inp) := rfl
      rw [this, h1] at hr
      simp at hr

/-- Data that fits on the current line (the exact fit included) is
emitted without any line feed: the wrap-point line feed after an exact
final fit is the one the source drops. -/
theorem emitDrop_fit (L : Nat) : ∀ (D : List Nat) (c : Nat), c + D.length ≤ L →
    emitDrop L D c = D := by
  intro D
  induction D with
  | nil => intro c _; rfl
  | cons r rest ih =>
    intro c hfit
    by_cases hw : c + 1 = L
    · have hrest : rest = [] := by
        cases rest with
        | nil => rfl
        | cons x xs => simp [List.length_cons] at hfit; omega
      subst hrest
      simp [emitDrop, hw]
    · have : emitDrop L (r :: rest) c = r :: emitDrop L rest c.succ := by
        simp [emitDrop, hw]
      rw [this, ih (c + 1) (by simp at hfit; omega)]

/-- Data overflowing the current line splits at the wrap point: a full
chunk, a line feed, and the emission of the remaining data on a fresh
line. -/
theorem emitDrop_split (L : Nat) : ∀ (D : List Nat) (c : Nat), c < L → L < c + D.length →
    emitDrop L D c = D.take (L - c) ++ 10 :: emitDrop L (D.drop (L - c)) 0 := by
  intro D
  induction D with
  | nil => intro c hc hov; simp at hov; omega
  | cons r rest ih =>
    intro c hc hov
    by_cases hw : c + 1 = L
    · have hk : L - c = 1 := by omega
      have hrest : rest ≠ [] := by
        intro hx
        subst hx
        simp at hov
        omega
      rw [hk]
      simp [emitDrop, hw, hrest]
    · have hlt : c + 1 < L := by omega
      have hov2 : L < c + 1 + rest.length := by simp at hov; omega
      obtain ⟨k, hkk⟩ : ∃ k, L - c = k + 1 := ⟨L - c - 1, by omega⟩
      have hk2 : L - (c + 1) = k := by omega
      have h1 : emitDrop L (r :: rest) c = r :: emitDrop L rest c.succ := by
        simp [emitDrop, hw]
      rw [h1, ih (c + 1) hlt hov2, hk2, hkk, List.take_succ_cons, List.drop_succ_cons]
      rfl

/-- The emission loop of `String`, with the final drop of the trailing
line feed applied, produces exactly `emitDrop` appended to the buffer so
far, for non-empty data. -/
theorem stringLoop_emitDrop (L : Nat) : ∀ (D : List Nat) (c : Nat) (b : List Nat), D ≠ [] →
    (if (stringLoop L D c b).2 = 0 ∧ 0 < (stringLoop L D c b).1.length
     then (stringLoop L D c b).1.dropLast else (stringLoop L D c b).1) =
      b ++ emitDrop L D c := by
  intro D
  induction D with
  | nil => intro c b hD; exact absurd rfl hD
  | cons r rest ih =>
    intro c b _
    cases rest with
    | nil =>
      by_cases hw : c + 1 = L
      · simp [stringLoop, emitDrop, hw]
      · simp [stringLoop, emitDrop, hw]
    | cons x xs =>
      by_cases hw : c + 1 = L
      · have h1 : stringLoop L (r :: x :: xs) c b = stringLoop L (x :: xs) 0 (b ++ [r, 10]) := by
          simp [stringLoop, hw]
        have h2 : emitDrop L (r :: x :: xs) c = r :: 10 :: emitDrop L (x :: xs) 0 := by
          simp [emitDrop, hw]
        rw [h1, h2, ih 0 (b ++ [r, 10]) (by simp)]
        simp
      · have h1 : stringLoop L (r :: x :: xs) c b = stringLoop L (x :: xs) (c + 1) (b ++ [r]) := by
          simp [stringLoop, hw]
        have h2 : emitDrop L (r :: x :: xs) c = r :: emitDrop L (x :: xs) c.succ := by
          simp [emitDrop, hw]
        rw [h1, h2, ih (c + 1) (b ++ [r]) (by simp)]
        simp

/-- `String` on a record with non-empty data: the marker, the header, a
line feed, and the wrapped data. -/
theorem toString_emitDrop (s : Sequence) (hd : s.data ≠ []) :
    Sequence.toString s = (62 :: s.header) ++ 10 :: emitDrop s.lineLength s.data 0 := by
  have h := stringLoop_emitDrop s.lineLength s.data 0 (62 :: s.header ++ [10]) hd
  show (if 0 < (if (stringLoop s.lineLength s.data 0 (62 :: s.header ++ [10])).2 = 0 ∧
        0 < (stringLoop s.lineLength s.data 0 (62 :: s.header ++ [10])).1.length
      then (stringLoop s.lineLength s.data 0 (62 :: s.header ++ [10])).1.dropLast
      else (stringLoop s.lineLength s.data 0 (62 :: s.header ++ [10])).1).length
    then _ else []) = _
  rw [h]
  simp

/-- The scan loop consumes a whole wrapped data section: with the
first-record sentinel already cleared, every wrapped line is routed into
the accumulation buffer, the unterminated final line is appended through
the flush path, and the loop returns true with the data section appended
whole and the open header promoted. -/
theorem scanLoop_emitDrop (L : Nat) (hL : 1 ≤ L) : ∀ (n : Nat) (D : List Nat) (c : Nat)
    (s : Scanner), D.length ≤ n → D ≠ [] → c < L →
    (∀ b ∈ D, b ≠ 10 ∧ b ≠ 13 ∧ b ≠ 62) →
    s.input = emitDrop L D c → s.firstSequence = false →
    ∃ s1, scanLoop s = some (true, s1) ∧ s1.data = s.data ++ D ∧
      s1.previousHeader = s.currentHeader ∧ s1.lastSequence = true := by
  intro n
  induction n with
  | zero =>
    intro D c s hn hD hc hbytes hinp hf
    exact absurd (List.length_eq_zero.mp (Nat.le_zero.mp hn)) hD
  | succ n ih =>
    intro D c s hn hD hc hbytes hinp hf
    by_cases hfit : c + D.length ≤ L
    · have he : emitDrop L D c = D := emitDrop_fit L D c hfit
      have hrl : readLine s.input = (s.input, [], true) := by
        rw [hinp, he]
        exact readLine_no10 (fun b hb => (hbytes b hb).1)
      have hx := scanLoop_exhaust (ScanLine_eof hrl)
      have hx3 : scanLoop s = some (true, { s with
          input := []
          line := s.input
          errEOF := true
          lastSequence := true
          data := s.data ++ s.input
          previousHeader := s.currentHeader }) := by
        rw [hx, hf]
        rfl
      refine ⟨_, hx3, ?_, rfl, rfl⟩
      show s.data ++ s.input = s.data ++ D
      rw [hinp, he]
    · have hov : L < c + D.length := by omega
      have hsplit := emitDrop_split L D c hc hov
      have hlen_take : (D.take (L - c)).length = L - c := by
        rw [List.length_take]
        omega
      obtain ⟨b0, t0, hbt⟩ : ∃ b0 t0, D.take (L - c) = b0 :: t0 := by
        cases hq : D.take (L - c) with
        | nil => rw [hq] at hlen_take; simp at hlen_take; omega
        | cons y ys => exact ⟨y, ys, rfl⟩
      have htake_mem : ∀ b ∈ D.take (L - c), b ∈ D := fun b hb => List.take_subset _ _ hb
      have hrl : readLine s.input =
          (D.take (L - c) ++ [10], emitDrop L (D.drop (L - c)) 0, false) := by
        rw [hinp, hsplit]
        exact readLine_term _ _ (fun b hb => (hbytes b (htake_mem b hb)).1)
      have htl : trimRight (D.take (L - c) ++ [10]) = b0 :: t0 := by
        rw [trimRight_append10, trimRight_of_clean, hbt]
        intro b hb
        have := hbytes b (htake_mem b hb)
        exact ⟨this.2.1, this.1⟩
      have hsl := ScanLine_content hrl htl
      have hb62 : (b0 == 62) = false := by
        have hmem : b0 ∈ D := htake_mem b0 (by rw [hbt]; simp)
        simpa using (hbytes b0 hmem).2.2
      obtain ⟨s1, hloop, hdata, hprev, hlast⟩ :=
        ih (D.drop (L - c)) 0
          { input := emitDrop L (D.drop (L - c)) 0
            line := b0 :: t0
            errEOF := s.errEOF
            isHeader := (b0 == 62)
            lastSequence := s.lastSequence
            previousHeader := s.previousHeader
            currentHeader := s.currentHeader
            firstSequence := s.firstSequence
            data := s.data ++ (b0 :: t0) }
          (by rw [List.length_drop]; omega)
          (fun hq => by
            have hlq := congrArg List.length hq
            rw [List.length_drop] at hlq
            simp at hlq
            omega)
          hL
          (fun b hb => hbytes b (List.drop_subset _ _ hb))
          rfl
          hf
      refine ⟨s1, ?_, ?_, hprev, hlast⟩
      · rw [scanLoop_data_step hsl hb62]
        exact hloop
      · rw [hdata]
        show (s.data ++ (b0 :: t0)) ++ D.drop (L - c) = s.data ++ D
        rw [← hbt, List.append_assoc, List.take_append_drop]

set_option maxRecDepth 4000 in
/-- Counterexample to C1 as stated: the empty record (empty header, empty
data, default wrap width) serializes to the bare one-byte marker `">"`,
and scanning that text yields zero records — the first `ScanSequence`
returns false — so no record equal to the original is produced. -/
theorem claim_c1_counterexample :
    Sequence.toString (NewSequence [] []) = [62] ∧
    (ScanSequence (NewScanner (Sequence.toString (NewSequence [] [])))).map Prod.fst =
      some false := by decide

/-- C1 (amended): for every record with a positive (or unbounded-sentinel)
wrap width, a non-empty data buffer free of line feeds, carriage returns
and marker bytes, and a header free of line feeds and carriage returns,
scanning the text produced by `String` with a fresh scanner yields exactly
one record that `Equals` the original (identical header, byte-identical
data), with the retrieved record's wrap width reset to the default, and
the next `ScanSequence` call returns false. -/
theorem claim_c1_roundtrip (s : Sequence) (hL : 1 ≤ s.lineLength) (hd : s.data ≠ [])
    (hh : ∀ b ∈ s.header, b ≠ 10 ∧ b ≠ 13)
    (hdd : ∀ b ∈ s.data, b ≠ 10 ∧ b ≠ 13 ∧ b ≠ 62) :
    ∃ s1, ScanSequence (NewScanner (Sequence.toString s)) = some (true, s1) ∧
      (Scanner.Sequence s1).1.Equals s = true ∧
      (Scanner.Sequence s1).1.lineLength = DefaultLineLength ∧
      ScanSequence (Scanner.Sequence s1).2 = some (false, (Scanner.Sequence s1).2) := by
  have hts := toString_emitDrop s hd
  have hrl : readLine (NewScanner (Sequence.toString s)).input =
      ((62 :: s.header) ++ [10], emitDrop s.lineLength s.data 0, false) := by
    show readLine (Sequence.toString s) = _
    rw [hts]
    exact readLine_term _ _ (by
      intro b hb
      rcases List.mem_cons.mp hb with h62 | hmem
      · omega
      · exact (hh b hmem).1)
  have htl : trimRight ((62 :: s.header) ++ [10]) = 62 :: s.header := by
    rw [trimRight_append10]
    apply trimRight_of_clean
    intro b hb
    rcases List.mem_cons.mp hb with h62 | hmem
    · omega
    · exact ⟨(hh b hmem).2, (hh b hmem).1⟩
  have hsl := ScanLine_content hrl htl
  have hstep := scanLoop_header_first hsl rfl rfl rfl
  obtain ⟨s1, hloop, hdata, hprev, hlast⟩ :=
    scanLoop_emitDrop s.lineLength hL s.data.length s.data 0
      { input := emitDrop s.lineLength s.data 0
        line := 62 :: s.header
        errEOF := false
        isHeader := (62 == 62)
        lastSequence := false
        previousHeader := []
        currentHeader := s.header
        firstSequence := false
        data := [] }
      (le_refl _) hd (by omega) hdd rfl rfl
  have hmain : ScanSequence (NewScanner (Sequence.toString s)) = some (true, s1) := by
    show scanLoop (NewScanner (Sequence.toString s)) = some (true, s1)
    rw [hstep]
    exact hloop
  have hdata2 : s1.data = s.data := hdata
  have hprev2 : s1.previousHeader = s.header := hprev
  refine ⟨s1, hmain, ?_, rfl, ?_⟩
  · show Sequence.Equals
      { header := s1.previousHeader, data := s1.data, lineLength := DefaultLineLength } s = true
    rw [Sequence.Equals, hdata2, hprev2]
    simp
  · show ScanSequence { s1 with data := [] } = some (false, { s1 with data := [] })
    rw [ScanSequence]
    rw [if_pos (show ({ s1 with data := [] } : Scanner).lastSequence = true from hlast)]

/-- Witness for C1 on the record with header `"h"`, data `"ACGTU"` and
wrap width 2. -/
theorem claim_c1_roundtrip_witness :
    ∃ s1, ScanSequence (NewScanner (Sequence.toString
        { header := [104], data := [65, 67, 71, 84, 85], lineLength := 2 })) =
          some (true, s1) ∧
      (Scanner.Sequence s1).1.Equals
        { header := [104], data := [65, 67, 71, 84, 85], lineLength := 2 } = true ∧
      (Scanner.Sequence s1).1.lineLength = DefaultLineLength ∧
      ScanSequence (Scanner.Sequence s1).2 = some (false, (Scanner.Sequence s1).2) :=
  claim_c1_roundtrip _ (by decide) (by decide) (by decide) (by decide)

/-- Witness for C5: the header-free input `"ACGT\nTT"` yields no record,
and the empty input yields no record. -/
theorem claim_c5_no_header_witness :
    (noHeaderInput [65, 67, 71, 84, 10, 84, 84] = true ∧
      ∃ s1, ScanSequence (NewScanner [65, 67, 71, 84, 10, 84, 84]) = some (false, s1) ∧
        s1.lastSequence = true ∧ ScanSequence s1 = some (false, s1)) ∧
    (noHeaderInput [] = true ∧
      ∃ s1, ScanSequence (NewScanner []) = some (false, s1) ∧
        s1.lastSequence = true ∧ ScanSequence s1 = some (false, s1)) :=
  ⟨⟨by decide, (claim_c5_no_header [65, 67, 71, 84, 10, 84, 84]).1 (by decide)⟩,
   ⟨by decide, (claim_c5_no_header []).1 (by decide)⟩⟩

/-- The scan loop is total — never the modelled panic `none` — whenever,
walking the terminated lines of the remaining input from the current
classification flag, no line trims to empty while the flag marks a
header: the loop then only ever takes the exhaustion, data and non-empty
header branches. -/
theorem scanLoop_total : ∀ (k : Nat) (s : Scanner), s.input.length ≤ k →
    noBlankAfterHeader s.isHeader (splitOnNl s.input).1 = true →
    ∃ r, scanLoop s = some r := by
  intro k
  induction k with
  | zero =>
    intro s hk _
    have hinp : s.input = [] := List.length_eq_zero.mp (Nat.le_zero.mp hk)
    have hrl : readLine s.input = (s.input, [], true) := by rw [hinp]; rfl
    exact ⟨_, scanLoop_exhaust (ScanLine_eof hrl)⟩
  | succ k ih =>
    intro s hk hsafe
    rcases hsp : splitOnNl s.input with ⟨ls, tr⟩
    cases ls with
    | nil =>
      have hrl := splitOnNl_nil_readLine hsp
      exact ⟨_, scanLoop_exhaust (ScanLine_eof hrl)⟩
    | cons l ls1 =>
      obtain ⟨rest, hrl, hsp2⟩ := splitOnNl_cons_readLine hsp
      have hlen : rest.length < s.input.length := readLine_lt hrl
      rw [hsp] at hsafe
      cases htl : trimRight l with
      | nil =>
        simp only [noBlankAfterHeader, htl, Bool.and_eq_true] at hsafe
        have hih : s.isHeader = false := by
          cases hflag : s.isHeader with
          | false => rfl
          | true => rw [hflag] at hsafe; simp at hsafe
        have htl2 : trimRight (l ++ [10]) = [] := by rw [trimRight_append10, htl]
        have hsl := ScanLine_empty hrl htl2
        rw [scanLoop_data_step hsl hih]
        refine ih _ ?_ ?_
        · show rest.length ≤ k
          omega
        · show noBlankAfterHeader s.isHeader (splitOnNl rest).1 = true
          rw [hsp2]
          exact hsafe.2
      | cons b t =>
        simp only [noBlankAfterHeader, htl] at hsafe
        have htl2 : trimRight (l ++ [10]) = b :: t := by rw [trimRight_append10, htl]
        have hsl := ScanLine_content hrl htl2
        by_cases hb : (b == 62) = true
        · cases hfs : s.firstSequence with
          | true =>
            rw [scanLoop_header_first hsl hb rfl hfs]
            refine ih _ ?_ ?_
            · show rest.length ≤ k
              omega
            · show noBlankAfterHeader (b == 62) (splitOnNl rest).1 = true
              rw [hsp2]
              exact hsafe
          | false =>
            exact ⟨_, scanLoop_header_return hsl hb rfl hfs⟩
        · have hb2 : (b == 62) = false := by
            cases hq : (b == 62) with
            | false => rfl
            | true => exact absurd hq hb
          rw [scanLoop_data_step hsl hb2]
          refine ih _ ?_ ?_
          · show rest.length ≤ k
            omega
          · show noBlankAfterHeader (b == 62) (splitOnNl rest).1 = true
            rw [hsp2]
            exact hsafe

/-- C7 (amended): `ScanLine` is total by construction (its only byte
access is a constructor match on the line), and `ScanSequence` is total
and all its slice accesses in bounds — never the modelled panic — on
every scanner state, a fresh scanner over any input included, in which no
scanned line trims to empty while the classification flag marks a header;
the header branch then only ever takes `Line()[1:]` of a line of length
at least 1.  After the terminal record, `ScanSequence` returns false
outright. -/
theorem claim_c7_total :
    (∀ s : Scanner, noBlankAfterHeader s.isHeader (splitOnNl s.input).1 = true →
      ∃ r, scanLoop s = some r) ∧
    (∀ inp : List Nat, noBlankAfterHeader false (splitOnNl inp).1 = true →
      ∃ r, ScanSequence (NewScanner inp) = some r) ∧
    (∀ s : Scanner, s.lastSequence = true → ScanSequence s = some (false, s)) := by
  have hmain : ∀ s : Scanner, noBlankAfterHeader s.isHeader (splitOnNl s.input).1 = true →
      ∃ r, scanLoop s = some r :=
    fun s h => scanLoop_total s.input.length s (le_refl _) h
  refine ⟨hmain, fun inp h => ?_, fun s h => ?_⟩
  · show ∃ r, scanLoop (NewScanner inp) = some r
    exact hmain (NewScanner inp) h
  · show (if s.lastSequence = true then some (false, s) else scanLoop s) = some (false, s)
    rw [if_pos h]

/-- Witness for C7 on the blank-free input `">h\nA\n"` and on a terminal
scanner state. -/
theorem claim_c7_total_witness :
    (noBlankAfterHeader false (splitOnNl [62, 104, 10, 65, 10]).1 = true ∧
      ∃ r, ScanSequence (NewScanner [62, 104, 10, 65, 10]) = some r) ∧
    ScanSequence { NewScanner [] with lastSequence := true } =
      some (false, { NewScanner [] with lastSequence := true }) :=
  ⟨⟨by decide, claim_c7_total.2.1 _ (by decide)⟩,
   claim_c7_total.2.2 _ (by decide)⟩

end Fasta
